import Mathlib

/-!
Shallow embedding of src/src/tree.ts from simpleapples/vscode-references-view.

The file models the three components of tree.ts:
  - the history cache TreeInputHistory (a JS Map from string keys to
    HistoryItem values, insertion-ordered) together with the commands its
    constructor registers,
  - the TreeDataProviderDelegate (a swappable backing tree data provider), and
  - the orchestrator SymbolsTree with its setInput and clearInput operations.

Host objects from vscode (documents, context keys, tree view widget) are
modelled as explicit state or as function-valued parameters. JS promises are
modelled by splitting each async operation into the synchronous phase up to an
await and a separate settlement phase; promise identity is modelled with
natural-number tags.
-/

/-- Model of vscode.Position: a zero-based line and character pair. -/
structure Position where
  line : Nat
  character : Nat
deriving DecidableEq, Repr

/-- Model of vscode.Range as used here: only the start endpoint matters for
the history key, so we keep both endpoints as plain positions. The source
field name end is a Lean keyword, hence stop. -/
structure Range where
  start : Position
  stop : Position
deriving DecidableEq, Repr

/-- Uris are modelled by their string form. -/
abbrev Uri := String

/-- Model of SymbolTreeInput (declared in api.ts, consumed by tree.ts).
The field id models JS object identity: the orchestrator compares inputs
with the identity operator, which we model as structural equality on records
that carry a distinguishing id. The field kindTag models the prototype of
the input object, compared by Object.getPrototypeOf in setInput. -/
structure SymbolTreeInput where
  id : Nat
  kindTag : Nat
  uri : Uri
  position : Position
  title : String
  contextValue : String
deriving DecidableEq, Repr

/-- Modelled from the spec: api.ts is not under src/. The spec describes an
equality-preserving with-position constructor on Input; the source spells it
input.with(position). We keep every field but the position. -/
def SymbolTreeInput.withPosition (i : SymbolTreeInput) (p : Position) : SymbolTreeInput :=
  { i with position := p }

/-- Model of the vscode.TextDocument operations used by TreeInputHistory.add:
getWordRangeAtPosition with the default word regex, getWordRangeAtPosition
with the non-whitespace regex, and getText. -/
structure TextDocument where
  wordRangeAt : Position → Option Range
  nonWsRangeAt : Position → Option Range
  getText : Range → String

/-- Modelled from the spec: WordAnchor lives in utils.ts, which is not under
src/. The spec says it captures a document position plus surrounding text and
that guessedTrackedPosition produces a best-effort re-anchored position or
null when the anchor text can no longer be found. We record the original
position and, abstractly, the re-anchored position that a call to
guessedTrackedPosition would return at the moment tree.ts consults it. -/
structure WordAnchor where
  position : Position
  tracked : Option Position
deriving DecidableEq, Repr

/-- Model of WordAnchor.guessedTrackedPosition. -/
def WordAnchor.guessedTrackedPosition (a : WordAnchor) : Option Position :=
  a.tracked

/-- Model of the optional navigation helper on a resolved model: an id for
the helper object and its nearest lookup, returning an opaque tree node
handle. -/
structure NavDelegate where
  navId : Nat
  nearest : Uri → Position → Option Nat

/-- Model of the result of input.resolve(): the SymbolTreeModel of api.ts as
consumed by tree.ts. providerId tags the model.provider object; highlights
and dispose are only tested for presence by tree.ts, so booleans suffice. -/
structure Model where
  providerId : Nat
  empty : Bool
  message : Option String
  navigation : Option NavDelegate
  hasHighlights : Bool
  hasDispose : Bool

-- --- history cache

/-- Model of the history deduplication key. The source builds the string
JSON.stringify of the triple of the anchor start position (the word range
start, falling back to the input position), the uri and the title; since that
encoding is injective on the triple we keep the triple itself. -/
structure HistoryKey where
  start : Position
  uri : Uri
  title : String
deriving DecidableEq, Repr

/-- Model of HistoryItem from tree.ts: key, word, anchor and original input,
plus the description string computed in the constructor. -/
structure HistoryItem where
  key : HistoryKey
  word : String
  anchor : WordAnchor
  input : SymbolTreeInput
  description : String
deriving DecidableEq, Repr

/-- Model of a JS Map from history keys to history items: the list of
key-value pairs in insertion order, as iterated by Map.values(). -/
abbrev HistoryMap := List (HistoryKey × HistoryItem)

/-- Model of Map.delete: removes the entry with the given key, keeping the
order of the others. -/
def mapDelete (m : HistoryMap) (k : HistoryKey) : HistoryMap :=
  m.filter fun e => decide (e.1 ≠ k)

/-- Model of Map.has. -/
def mapHasKey (m : HistoryMap) (k : HistoryKey) : Bool :=
  m.any fun e => decide (e.1 = k)

/-- Model of Map.set: replaces in place when the key is present (JS maps keep
the original insertion position on overwrite), otherwise appends at the
most-recent end. -/
def mapSet (m : HistoryMap) (k : HistoryKey) (v : HistoryItem) : HistoryMap :=
  if mapHasKey m k then m.map (fun e => if e.1 = k then (k, v) else e)
  else m ++ [(k, v)]

/-- State of TreeInputHistory: the map of inputs and the published
reference-list.hasHistory context value. Context keys start out unset, which
we model with none; ContextKey.set is modelled by storing some value. -/
structure HistoryState where
  inputs : HistoryMap
  ctxHasHistory : Option Bool
deriving DecidableEq, Repr

/-- Fresh TreeInputHistory state: empty map, context key never set. -/
def emptyHistory : HistoryState :=
  { inputs := [], ctxHasHistory := none }

/-- Model of the word range lookup in TreeInputHistory.add: the default word
range at the position, falling back to the non-whitespace range. -/
def wordRangeWithFallback (doc : TextDocument) (pos : Position) : Option Range :=
  match doc.wordRangeAt pos with
  | some r => some r
  | none => doc.nonWsRangeAt pos

/-- The deduplication key computed in TreeInputHistory.add: the start of the
word range when one exists, otherwise the input position, together with the
uri and the title. -/
def historyKeyOf (doc : TextDocument) (input : SymbolTreeInput) : HistoryKey :=
  { start := ((wordRangeWithFallback doc input.position).map Range.start).getD input.position
    uri := input.uri
    title := input.title }

/-- The HistoryItem built in TreeInputHistory.add: word text from the range
when found, the placeholder otherwise; the anchor is constructed by the host
utility WordAnchor (utils.ts, outside src/), so it is passed in. The
description mirrors the HistoryItem constructor; asRelativePath is a host
operation modelled as the identity on the uri string. -/
def mkHistoryItem (doc : TextDocument) (anchor : WordAnchor) (input : SymbolTreeInput) : HistoryItem :=
  let word := match wordRangeWithFallback doc input.position with
    | some r => doc.getText r
    | none => "???"
  { key := historyKeyOf doc input
    word := word
    anchor := anchor
    input := input
    description := input.uri ++ " • " ++ input.title.toLower }

/-- Model of TreeInputHistory.add after the awaited document open: delete the
key then set it, so the item moves to the most-recent end, and publish
hasHistory = true. -/
def TreeInputHistory.add (h : HistoryState) (doc : TextDocument) (anchor : WordAnchor)
    (input : SymbolTreeInput) : HistoryState :=
  let item := mkHistoryItem doc anchor input
  { inputs := mapSet (mapDelete h.inputs item.key) item.key item
    ctxHasHistory := some true }

/-- Model of TreeInputHistory.clear: empty the map and publish
hasHistory = false (the change event it also fires carries no state we track
here). -/
def TreeInputHistory.clear (_h : HistoryState) : HistoryState :=
  { inputs := [], ctxHasHistory := some false }

/-- Model of the size getter. -/
def TreeInputHistory.size (h : HistoryState) : Nat :=
  h.inputs.length

/-- Model of TreeInputHistory.getChildren: the map values in reverse
insertion order, most recent first. -/
def TreeInputHistory.getChildren (h : HistoryState) : List HistoryItem :=
  (h.inputs.map Prod.snd).reverse

/-- Model of the private method reRunHistoryItem: delete the item from the
map, build the new input at the re-anchored position (falling back to the
stored one) and hand it to SymbolsTree.setInput. The pair returned is the
new history state and the input fed to setInput. The hasHistory context key
is not touched by this method. -/
def TreeInputHistory.reRunHistoryItem (h : HistoryState) (item : HistoryItem) :
    HistoryState × SymbolTreeInput :=
  ({ h with inputs := mapDelete h.inputs item.key },
   item.input.withPosition ((item.anchor.guessedTrackedPosition).getD item.input.position))

/-- Model of the item a references-view.refresh invocation picks: the first
value delivered by Map.values(), the head of insertion order. -/
def TreeInputHistory.refreshTarget (h : HistoryState) : Option HistoryItem :=
  (h.inputs.head?).map Prod.snd

/-- Model of vscode.TreeItemCollapsibleState as far as used. -/
inductive CollapsibleState
  | noChildren
deriving DecidableEq, Repr

/-- Model of the command attached to a tree item: name, arguments (here at
most the history item) and display title. -/
structure TreeItemCommand where
  command : String
  arguments : List HistoryItem
  title : String
deriving DecidableEq, Repr

/-- Model of the vscode.TreeItem values built by TreeInputHistory. -/
structure VTreeItem where
  label : String
  description : String
  command : Option TreeItemCommand
  collapsibleState : CollapsibleState
  contextValue : String
deriving DecidableEq, Repr

/-- Model of TreeInputHistory.getTreeItem: label is the word, the attached
command, which the tree widget runs when the item is activated, is the
internal show-history-item command with the item as argument. -/
def TreeInputHistory.getTreeItem (item : HistoryItem) : VTreeItem :=
  { label := item.word
    description := item.description
    command := some { command := "_references-view.showHistoryItem"
                      arguments := [item]
                      title := "Rerun" }
    collapsibleState := CollapsibleState.noChildren
    contextValue := "history-item" }

/-- Observable outcome of running one of the history commands: nothing, a
vscode.open of a document at a selection, or an input fed to
SymbolsTree.setInput. -/
inductive CommandOutcome
  | nothing
  | openedDoc (uri : Uri) (selStart : Position) (selStop : Position)
  | ranInput (input : SymbolTreeInput)
deriving DecidableEq, Repr

/-- Model of the command handlers registered in the TreeInputHistory
constructor that act on the history cache itself: refind, refresh and the
internal showHistoryItem. The clear and clearHistory handlers call into the
orchestrator and are modelled with the orchestrator below;
pickFromHistory ends in the same reRunHistoryItem call as refind. -/
def runHistoryCommand (h : HistoryState) (cmd : String) (arg : Option HistoryItem) :
    HistoryState × CommandOutcome :=
  if cmd = "references-view.refind" then
    match arg with
    | some item =>
        let r := TreeInputHistory.reRunHistoryItem h item
        (r.1, CommandOutcome.ranInput r.2)
    | none => (h, CommandOutcome.nothing)
  else if cmd = "references-view.refresh" then
    match TreeInputHistory.refreshTarget h with
    | some item =>
        let r := TreeInputHistory.reRunHistoryItem h item
        (r.1, CommandOutcome.ranInput r.2)
    | none => (h, CommandOutcome.nothing)
  else if cmd = "_references-view.showHistoryItem" then
    match arg with
    | some item =>
        let position := (item.anchor.guessedTrackedPosition).getD item.input.position
        (h, CommandOutcome.openedDoc item.input.uri position position)
    | none => (h, CommandOutcome.nothing)
  else (h, CommandOutcome.nothing)

/-- Activating a history tree item runs the command getTreeItem attached to
it, with its stored arguments. -/
def activateHistoryItem (h : HistoryState) (item : HistoryItem) :
    HistoryState × CommandOutcome :=
  match (TreeInputHistory.getTreeItem item).command with
  | some c => runHistoryCommand h c.command c.arguments.head?
  | none => (h, CommandOutcome.nothing)

/-- Well-formedness of a history state: every stored item records the map key
it is filed under. TreeInputHistory.add establishes this by construction. -/
def HistoryState.WF (h : HistoryState) : Prop :=
  ∀ e ∈ h.inputs, e.2.key = e.1

-- --- delegate provider

/-- Identity of a provider promise handed to TreeDataProviderDelegate.update:
either the promise of a resolving model provider from SymbolsTree.setInput,
tagged with a promise id, or the already-resolved history provider promise
built in clearInput. -/
inductive ProviderRef
  | history
  | model (pid : Nat)
deriving DecidableEq, Repr

/-- How a provider promise settles: with a provider value, or rejected with
an error message. -/
inductive SettleOutcome
  | resolved
  | rejected (err : String)
deriving DecidableEq, Repr

/-- State of TreeDataProviderDelegate: the current provider promise, the
promise whose change events are currently subscribed (the session
disposable), a count of change events fired on the own emitter, and the
console error log. -/
structure DelegateState where
  provider : Option ProviderRef
  subscribedTo : Option ProviderRef
  changeEvents : Nat
  log : List String
deriving DecidableEq, Repr

/-- Model of TreeDataProviderDelegate.update up to its return: dispose the
previous subscription, fire one change event immediately, and store the new
promise as current. The settlement of the promise is a separate step. -/
def DelegateState.update (st : DelegateState) (p : ProviderRef) : DelegateState :=
  { st with
    subscribedTo := none
    changeEvents := st.changeEvents + 1
    provider := some p }

/-- Model of the continuation attached in update: when the promise resolves
and is still the current one, subscribe to the new provider; when it
rejects, unset the provider and log the error. The rejection handler does
not throw to the caller of update, which the total return type reflects, and
it does not check whether the promise is still the current one. -/
def DelegateState.settle (st : DelegateState) (p : ProviderRef) (out : SettleOutcome) :
    DelegateState :=
  match out with
  | SettleOutcome.resolved =>
      if st.provider = some p then { st with subscribedTo := some p } else st
  | SettleOutcome.rejected err =>
      { st with provider := none, log := st.log ++ [err] }

/-- Model of TreeDataProviderDelegate.getTreeItem: the assertion throws the
missing-provider error when no provider is set; otherwise the call is
delegated to the awaited provider, which we record as the pair of provider
and element. -/
def DelegateState.getTreeItem (st : DelegateState) (element : Nat) :
    Except String (ProviderRef × Nat) :=
  match st.provider with
  | none => Except.error "MISSING provider"
  | some p => Except.ok (p, element)

/-- Model of TreeDataProviderDelegate.getChildren, like getTreeItem with an
optional parent element. -/
def DelegateState.getChildren (st : DelegateState) (parent : Option Nat) :
    Except String (ProviderRef × Option Nat) :=
  match st.provider with
  | none => Except.error "MISSING provider"
  | some p => Except.ok (p, parent)

/-- Model of TreeDataProviderDelegate.getParent. -/
def DelegateState.getParent (st : DelegateState) (element : Nat) :
    Except String (ProviderRef × Nat) :=
  match st.provider with
  | none => Except.error "MISSING provider"
  | some p => Except.ok (p, element)

-- --- orchestrator

/-- The session disposable bundle built at the end of setInput: whether an
editor highlight session was constructed, whether the model contributed a
dispose callback, and the provider whose change events the listener is
subscribed to. -/
structure SessionInfo where
  hasHighlights : Bool
  hasDispose : Bool
  providerId : Nat
deriving DecidableEq, Repr

/-- Observable state of SymbolsTree together with the host objects it
drives: the three context keys (unset context keys are none), tree title and
message, the current input, the number of focus commands issued, the
navigation helper handed to Navigation.update, the last reveal request, the
session disposable bundle (none when disposed), the history state and the
delegate state. -/
structure TreeState where
  ctxIsActive : Option Bool
  ctxHasResult : Option Bool
  ctxInputSource : Option String
  title : String
  message : Option String
  input : Option SymbolTreeInput
  focusRequests : Nat
  navigation : Option NavDelegate
  revealed : Option Nat
  session : Option SessionInfo
  history : HistoryState
  delegate : DelegateState

/-- Model of SymbolsTree.clearInput: dispose the session, unset the current
input, publish hasResult = false, reset the input source context, reset the
title to the default label, set the no-results message depending on history
size, and hand the delegate the history provider. -/
def SymbolsTree.clearInput (st : TreeState) : TreeState :=
  { st with
    session := none
    input := none
    ctxHasResult := some false
    ctxInputSource := none
    title := "References"
    message := some (if TreeInputHistory.size st.history = 0 then "No results."
                     else "No results. Try running a previous search again:")
    delegate := st.delegate.update ProviderRef.history }

/-- Model of the synchronous phase of SymbolsTree.setInput, from entry to the
await of the model promise: the position validity check (the awaited host
call isValidRequestPosition of utils.ts is passed in as its boolean result),
the optimistic context publishing, the focus command, the input-kind
comparison against the previous input, storing the input, disposing the
previous session, title and message updates, and handing the delegate the
promise of the model provider, tagged pid. -/
def SymbolsTree.setInputStart (st : TreeState) (input : SymbolTreeInput) (valid : Bool)
    (pid : Nat) : TreeState :=
  if valid = false then SymbolsTree.clearInput st
  else
    let newInputKind := match st.input with
      | none => true
      | some prev => decide (prev.kindTag ≠ input.kindTag)
    { st with
      ctxInputSource := some input.contextValue
      ctxIsActive := some true
      ctxHasResult := some true
      focusRequests := st.focusRequests + 1
      input := some input
      session := none
      title := input.title
      message := if newInputKind then none else st.message
      delegate := st.delegate.update (ProviderRef.model pid) }

/-- Model of the rest of SymbolsTree.setInput once the model promise has
resolved: abandon the result when a newer input replaced this one, treat an
empty model as clearInput, and otherwise add to history, set the message,
update navigation, reveal the nearest match when the view is visible, and
install the new session bundle. The anchor for the history item and the
document are the host values the awaited history add obtains. -/
def SymbolsTree.setInputResolve (st : TreeState) (input : SymbolTreeInput) (model : Model)
    (doc : TextDocument) (anchor : WordAnchor) (treeVisible : Bool) : TreeState :=
  if st.input ≠ some input then st
  else if model.empty then SymbolsTree.clearInput st
  else
    let st1 := { st with
      history := TreeInputHistory.add st.history doc anchor input
      message := model.message
      navigation := model.navigation }
    let selection := model.navigation.bind fun nav => nav.nearest input.uri input.position
    let st2 := match selection with
      | some sel => if treeVisible then { st1 with revealed := some sel } else st1
      | none => st1
    { st2 with
      session := some { hasHighlights := model.hasHighlights
                        hasDispose := model.hasDispose
                        providerId := model.providerId } }

/-- Model of the effect on tracked state when the model promise rejects: the
await in setInput rethrows, so no orchestrator field is touched; the provider
promise handed to the delegate rejects as well and runs the delegate
rejection handler. -/
def SymbolsTree.setInputReject (st : TreeState) (pid : Nat) (err : String) : TreeState :=
  { st with delegate := st.delegate.settle (ProviderRef.model pid) (SettleOutcome.rejected err) }

-- --- concrete fixtures used by witnesses and counterexamples

/-- Document fixture without any word at any position, so the word lookup in
TreeInputHistory.add falls through to the placeholder. -/
def doc0 : TextDocument :=
  { wordRangeAt := fun _ => none
    nonWsRangeAt := fun _ => none
    getText := fun _ => "" }

/-- Position fixture. -/
def pos0 : Position := { line := 10, character := 4 }

/-- Anchor fixture whose re-anchoring fails. -/
def anchorNone : WordAnchor := { position := pos0, tracked := none }

/-- Input fixture A. -/
def inp0 : SymbolTreeInput :=
  { id := 0
    kindTag := 0
    uri := "fileA"
    position := pos0
    title := "References"
    contextValue := "reference-list" }

/-- Input fixture B: a distinct object of the same kind at the same place. -/
def inpB : SymbolTreeInput := { inp0 with id := 1 }

/-- Input fixture with the same deduplication key triple as inp0 but a
different identity. -/
def inpDup : SymbolTreeInput := { inp0 with id := 2, kindTag := 3 }

/-- The history item TreeInputHistory.add builds for inp0 on doc0. -/
def item0 : HistoryItem := mkHistoryItem doc0 anchorNone inp0

/-- History state holding exactly item0. -/
def hist1 : HistoryState := TreeInputHistory.add emptyHistory doc0 anchorNone inp0

/-- Fresh delegate state. -/
def del0 : DelegateState :=
  { provider := none, subscribedTo := none, changeEvents := 0, log := [] }

/-- Non-empty model fixture. -/
def model0 : Model :=
  { providerId := 7
    empty := false
    message := some "5 results"
    navigation := none
    hasHighlights := false
    hasDispose := false }

/-- Empty model fixture. -/
def modelEmpty : Model :=
  { providerId := 8
    empty := true
    message := none
    navigation := none
    hasHighlights := false
    hasDispose := false }

/-- Fresh orchestrator state. -/
def st0 : TreeState :=
  { ctxIsActive := none
    ctxHasResult := none
    ctxInputSource := none
    title := "References"
    message := none
    input := none
    focusRequests := 0
    navigation := none
    revealed := none
    session := none
    history := emptyHistory
    delegate := del0 }

/-- State after setInput of inp0 began with a valid position (promise 1). -/
def stA : TreeState := SymbolsTree.setInputStart st0 inp0 true 1

/-- State after setInput of inp0 began and then setInput of inpB began and
replaced it (promise 2): the trace of the superseding scenario. -/
def stAB : TreeState := SymbolsTree.setInputStart stA inpB true 2

-- --- helper lemmas about the map operations

theorem mapHasKey_mapDelete (m : HistoryMap) (k : HistoryKey) :
    mapHasKey (mapDelete m k) k = false := by
  induction m with
  | nil => rfl
  | cons e t ih =>
      by_cases he : e.1 = k
      · simp [mapDelete, mapHasKey, List.filter_cons, he, ih]
      · simp [mapDelete, mapHasKey, List.filter_cons, List.any_cons, he, ih]

theorem mapSet_mapDelete (m : HistoryMap) (k : HistoryKey) (v : HistoryItem) :
    mapSet (mapDelete m k) k v = mapDelete m k ++ [(k, v)] := by
  simp [mapSet, mapHasKey_mapDelete]

theorem mapDelete_mapDelete (m : HistoryMap) (k : HistoryKey) :
    mapDelete (mapDelete m k) k = mapDelete m k := by
  induction m with
  | nil => rfl
  | cons e t ih =>
      by_cases he : e.1 = k
      · simp [mapDelete, List.filter_cons, he, ih]
      · simp [mapDelete, List.filter_cons, he, ih]

theorem filter_key_mapDelete (m : HistoryMap) (k : HistoryKey) :
    (mapDelete m k).filter (fun e => decide (e.1 = k)) = [] := by
  induction m with
  | nil => rfl
  | cons e t ih =>
      by_cases he : e.1 = k
      · simp [mapDelete, List.filter_cons, he, ih]
      · simp [mapDelete, List.filter_cons, he, ih]

theorem mapDelete_append (m₁ m₂ : HistoryMap) (k : HistoryKey) :
    mapDelete (m₁ ++ m₂) k = mapDelete m₁ k ++ mapDelete m₂ k := by
  simp [mapDelete, List.filter_append]

theorem map_snd_mapDelete (m : HistoryMap) (k : HistoryKey)
    (hwf : ∀ e ∈ m, e.2.key = e.1) :
    (mapDelete m k).map Prod.snd
      = (m.map Prod.snd).filter (fun it => decide (it.key ≠ k)) := by
  induction m with
  | nil => rfl
  | cons e t ih =>
      have he : e.2.key = e.1 := hwf e (by simp)
      have ht : ∀ x ∈ t, x.2.key = x.1 := fun x hx => hwf x (by simp [hx])
      by_cases hk : e.1 = k
      · simpa [mapDelete, List.filter_cons, hk, he, List.map_cons] using ih ht
      · simpa [mapDelete, List.filter_cons, hk, he, List.map_cons] using ih ht

theorem mapDelete_WF (m : HistoryMap) (k : HistoryKey)
    (hwf : ∀ e ∈ m, e.2.key = e.1) :
    ∀ e ∈ mapDelete m k, e.2.key = e.1 := by
  intro e he
  exact hwf e (List.mem_of_mem_filter he)

theorem mkHistoryItem_key (doc : TextDocument) (anchor : WordAnchor)
    (input : SymbolTreeInput) :
    (mkHistoryItem doc anchor input).key = historyKeyOf doc input := rfl

theorem add_inputs_eq (h : HistoryState) (doc : TextDocument) (anchor : WordAnchor)
    (input : SymbolTreeInput) :
    (TreeInputHistory.add h doc anchor input).inputs
      = mapDelete h.inputs (historyKeyOf doc input)
        ++ [(historyKeyOf doc input, mkHistoryItem doc anchor input)] := by
  simp [TreeInputHistory.add, mkHistoryItem_key, mapSet_mapDelete]

theorem mapDelete_singleton_self (k : HistoryKey) (v : HistoryItem) :
    mapDelete [(k, v)] k = [] := by
  simp [mapDelete]

-- --- claim theorems

/-- C1, counterexample. The claim says that once setInput(B) has replaced
input A, the settlement of the promise of A, however it settles, produces no
observable side effect, so that only the side effects of B remain. In the
trace where A starts, B starts, and then the model promise of A rejects, the
rejection handler installed by TreeDataProviderDelegate.update unsets the
backing provider without checking whether its promise is still the current
one: the provider that B installed is wiped, an observable side effect of the
settlement of A. -/
theorem setInput_superseded_rejection_counterexample :
    stAB.input = some inpB
  ∧ stAB.delegate.provider = some (ProviderRef.model 2)
  ∧ (SymbolsTree.setInputReject stAB 1 "resolve failed").delegate.provider = none
  ∧ (SymbolsTree.setInputReject stAB 1 "resolve failed").delegate.provider
      ≠ stAB.delegate.provider := by
  refine ⟨rfl, rfl, rfl, ?_⟩
  decide

/-- C1, amended. When the current input is no longer A at settlement: if the
promise of A resolves, the completion code returns at once and the whole
tracked state is unchanged; if the promise of A rejects, the orchestrator
fields (history, title, message, navigation, session, current input) are
still untouched, but the rejection handler in the delegate unsets the backing
provider, including one installed by the superseding input, and logs the
error. -/
theorem setInput_superseded_amended (st : TreeState) (a : SymbolTreeInput) (model : Model)
    (doc : TextDocument) (anchor : WordAnchor) (vis : Bool) (pid : Nat) (err : String)
    (h : st.input ≠ some a) :
    SymbolsTree.setInputResolve st a model doc anchor vis = st
  ∧ (SymbolsTree.setInputReject st pid err).history = st.history
  ∧ (SymbolsTree.setInputReject st pid err).title = st.title
  ∧ (SymbolsTree.setInputReject st pid err).message = st.message
  ∧ (SymbolsTree.setInputReject st pid err).navigation = st.navigation
  ∧ (SymbolsTree.setInputReject st pid err).session = st.session
  ∧ (SymbolsTree.setInputReject st pid err).input = st.input
  ∧ (SymbolsTree.setInputReject st pid err).delegate.provider = none
  ∧ (SymbolsTree.setInputReject st pid err).delegate.log = st.delegate.log ++ [err] := by
  refine ⟨?_, rfl, rfl, rfl, rfl, rfl, rfl, rfl, rfl⟩
  simp [SymbolsTree.setInputResolve, h]

/-- C1, witness for the amended theorem at the concrete superseding trace. -/
theorem setInput_superseded_amended_witness :
    stAB.input ≠ some inp0
  ∧ SymbolsTree.setInputResolve stAB inp0 model0 doc0 anchorNone true = stAB := by
  have h : stAB.input ≠ some inp0 := by decide
  exact ⟨h, (setInput_superseded_amended stAB inp0 model0 doc0 anchorNone true 1 "e" h).1⟩

/-- C2, counterexample. After adding one input the hasHistory context value
is true; the removal performed by the re-run action deletes the only item but
does not update the context value, so the size is 0 while the published flag
is still true, refuting the claimed iff across the re-run removal. -/
theorem history_flag_rerun_counterexample :
    hist1.ctxHasHistory = some true
  ∧ TreeInputHistory.size hist1 = 1
  ∧ (TreeInputHistory.reRunHistoryItem hist1 item0).1.ctxHasHistory = some true
  ∧ TreeInputHistory.size (TreeInputHistory.reRunHistoryItem hist1 item0).1 = 0 := by
  decide

/-- C2, amended. The invariant that the hasHistory context value is true iff
the size is positive holds after every add and after every clear; the removal
done by the re-run action leaves the context value unchanged, so it can leave
the flag true while the size is 0 until a later add or clear. -/
theorem history_flag_after_ops (h : HistoryState) (doc : TextDocument)
    (anchor : WordAnchor) (input : SymbolTreeInput) (item : HistoryItem) :
    ((TreeInputHistory.add h doc anchor input).ctxHasHistory = some true
      ∧ 0 < TreeInputHistory.size (TreeInputHistory.add h doc anchor input))
  ∧ ((TreeInputHistory.clear h).ctxHasHistory = some false
      ∧ TreeInputHistory.size (TreeInputHistory.clear h) = 0)
  ∧ (TreeInputHistory.reRunHistoryItem h item).1.ctxHasHistory = h.ctxHasHistory := by
  refine ⟨⟨rfl, ?_⟩, ⟨rfl, rfl⟩, rfl⟩
  simp [TreeInputHistory.size, add_inputs_eq]

/-- C3. When the resolved model is empty and the input is still current, the
completion of setInput is exactly clearInput on the current state, and the
history is not extended. -/
theorem setInput_empty_equals_clearInput (st : TreeState) (a : SymbolTreeInput)
    (model : Model) (doc : TextDocument) (anchor : WordAnchor) (vis : Bool)
    (hcur : st.input = some a) (hempty : model.empty = true) :
    SymbolsTree.setInputResolve st a model doc anchor vis = SymbolsTree.clearInput st
  ∧ (SymbolsTree.setInputResolve st a model doc anchor vis).history = st.history := by
  have h1 : SymbolsTree.setInputResolve st a model doc anchor vis
      = SymbolsTree.clearInput st := by
    simp [SymbolsTree.setInputResolve, hcur, hempty]
  exact ⟨h1, by rw [h1]; rfl⟩

/-- C3, witness: a started input resolving to the empty model. -/
theorem setInput_empty_equals_clearInput_witness :
    stA.input = some inp0
  ∧ modelEmpty.empty = true
  ∧ SymbolsTree.setInputResolve stA inp0 modelEmpty doc0 anchorNone true
      = SymbolsTree.clearInput stA := by
  have h1 : stA.input = some inp0 := by decide
  exact ⟨h1, rfl,
    (setInput_empty_equals_clearInput stA inp0 modelEmpty doc0 anchorNone true h1 rfl).1⟩

/-- C4. Adding two inputs whose deduplication key triples coincide leaves
exactly one map entry under that key, that entry holds the item of the second
add and sits at the most-recent end, and the second add does not grow the
map. -/
theorem history_add_dedup (h : HistoryState) (d₁ d₂ : TextDocument)
    (a₁ a₂ : WordAnchor) (i₁ i₂ : SymbolTreeInput)
    (hkey : historyKeyOf d₁ i₁ = historyKeyOf d₂ i₂) :
    ((TreeInputHistory.add (TreeInputHistory.add h d₁ a₁ i₁) d₂ a₂ i₂).inputs.filter
        (fun e => decide (e.1 = historyKeyOf d₂ i₂))).length = 1
  ∧ (TreeInputHistory.add (TreeInputHistory.add h d₁ a₁ i₁) d₂ a₂ i₂).inputs.getLast?
      = some (historyKeyOf d₂ i₂, mkHistoryItem d₂ a₂ i₂)
  ∧ TreeInputHistory.size (TreeInputHistory.add (TreeInputHistory.add h d₁ a₁ i₁) d₂ a₂ i₂)
      = TreeInputHistory.size (TreeInputHistory.add h d₁ a₁ i₁) := by
  have e2 : (TreeInputHistory.add (TreeInputHistory.add h d₁ a₁ i₁) d₂ a₂ i₂).inputs
      = mapDelete h.inputs (historyKeyOf d₂ i₂)
        ++ [(historyKeyOf d₂ i₂, mkHistoryItem d₂ a₂ i₂)] := by
    rw [add_inputs_eq, add_inputs_eq, hkey, mapDelete_append, mapDelete_mapDelete,
      mapDelete_singleton_self, List.append_nil]
  refine ⟨?_, ?_, ?_⟩
  · rw [e2, List.filter_append, filter_key_mapDelete]
    simp
  · rw [e2]
    simp
  · rw [TreeInputHistory.size, TreeInputHistory.size, e2, add_inputs_eq, hkey]
    simp

/-- C4, witness: two inputs with distinct identity but the same key triple. -/
theorem history_add_dedup_witness :
    historyKeyOf doc0 inp0 = historyKeyOf doc0 inpDup
  ∧ ((TreeInputHistory.add (TreeInputHistory.add emptyHistory doc0 anchorNone inp0)
        doc0 anchorNone inpDup).inputs.filter
          (fun e => decide (e.1 = historyKeyOf doc0 inpDup))).length = 1 := by
  have hk : historyKeyOf doc0 inp0 = historyKeyOf doc0 inpDup := by decide
  exact ⟨hk,
    (history_add_dedup emptyHistory doc0 doc0 anchorNone anchorNone inp0 inpDup hk).1⟩

/-- C5. Characterisation of getChildren over every mutating operation, for
any well-formed history state: an add yields the new item first, followed by
the previous most-recent-first listing with any entry of the same key removed;
the removal done by re-run filters the listing without reordering it; clear
empties it; and add preserves well-formedness. Together these pin the listing
to strictly reverse-of-insertion order after any sequence of adds and
removals. -/
theorem history_getChildren_most_recent_first (h : HistoryState) (doc : TextDocument)
    (anchor : WordAnchor) (input : SymbolTreeInput) (item : HistoryItem) (hwf : h.WF) :
    TreeInputHistory.getChildren (TreeInputHistory.add h doc anchor input)
      = mkHistoryItem doc anchor input ::
          (TreeInputHistory.getChildren h).filter
            (fun it => decide (it.key ≠ historyKeyOf doc input))
  ∧ TreeInputHistory.getChildren (TreeInputHistory.reRunHistoryItem h item).1
      = (TreeInputHistory.getChildren h).filter (fun it => decide (it.key ≠ item.key))
  ∧ TreeInputHistory.getChildren (TreeInputHistory.clear h) = []
  ∧ (TreeInputHistory.add h doc anchor input).WF := by
  have hwfm : ∀ e ∈ h.inputs, e.2.key = e.1 := hwf
  refine ⟨?_, ?_, rfl, ?_⟩
  · rw [TreeInputHistory.getChildren, add_inputs_eq, List.map_append,
      List.reverse_append, map_snd_mapDelete _ _ hwfm]
    rw [TreeInputHistory.getChildren, List.filter_reverse]
    rfl
  · rw [TreeInputHistory.getChildren, TreeInputHistory.reRunHistoryItem]
    rw [TreeInputHistory.getChildren, List.filter_reverse]
    rw [map_snd_mapDelete _ _ hwfm]
  · intro e he
    rw [add_inputs_eq] at he
    rcases List.mem_append.1 he with h1 | h2
    · exact mapDelete_WF _ _ hwfm e h1
    · rcases List.mem_singleton.1 h2 with rfl
      exact mkHistoryItem_key doc anchor input

/-- C5, witness at the one-item history state, which is well-formed. -/
theorem history_getChildren_most_recent_first_witness :
    hist1.WF
  ∧ TreeInputHistory.getChildren (TreeInputHistory.add hist1 doc0 anchorNone inpB)
      = mkHistoryItem doc0 anchorNone inpB ::
          (TreeInputHistory.getChildren hist1).filter
            (fun it => decide (it.key ≠ historyKeyOf doc0 inpB)) := by
  have h1 : hist1.inputs = [(historyKeyOf doc0 inp0, item0)] := rfl
  have hwf : hist1.WF := by
    intro e he
    rw [h1] at he
    rcases List.mem_singleton.1 he with rfl
    rfl
  exact ⟨hwf,
    (history_getChildren_most_recent_first hist1 doc0 anchorNone inpB item0 hwf).1⟩

/-- C6, counterexample. The command getTreeItem attaches to a history tree
item is the internal show-history-item command, so activating the item opens
the document and leaves the cache untouched: at the one-item history state
the cache still holds the item afterwards, while the re-run the claim
predicts would have removed it and produced a new input for setInput. -/
theorem history_item_activation_counterexample :
    (activateHistoryItem hist1 item0).1 = hist1
  ∧ TreeInputHistory.size (activateHistoryItem hist1 item0).1 = 1
  ∧ (activateHistoryItem hist1 item0).2
      = CommandOutcome.openedDoc "fileA" pos0 pos0
  ∧ TreeInputHistory.size (TreeInputHistory.reRunHistoryItem hist1 item0).1 = 0 := by
  exact ⟨rfl, rfl, rfl, rfl⟩

/-- C6, amended. Activating a history tree item runs the attached
show-history-item command: the history cache is unchanged and the document is
opened at the re-anchored position, falling back to the stored one. The
re-run action is instead bound to the refind command (and to refresh and
pick-from-history), and it is that action which removes the item, builds the
new input at the re-anchored position, and feeds it to setInput. -/
theorem history_item_activation_opens_document (h : HistoryState) (item : HistoryItem) :
    activateHistoryItem h item
      = (h, CommandOutcome.openedDoc item.input.uri
              ((item.anchor.guessedTrackedPosition).getD item.input.position)
              ((item.anchor.guessedTrackedPosition).getD item.input.position))
  ∧ runHistoryCommand h "references-view.refind" (some item)
      = ((TreeInputHistory.reRunHistoryItem h item).1,
         CommandOutcome.ranInput (TreeInputHistory.reRunHistoryItem h item).2)
  ∧ (TreeInputHistory.reRunHistoryItem h item).1.inputs = mapDelete h.inputs item.key
  ∧ (TreeInputHistory.reRunHistoryItem h item).2
      = item.input.withPosition ((item.anchor.guessedTrackedPosition).getD item.input.position) := by
  exact ⟨rfl, rfl, rfl, rfl⟩

/-- C7. When re-anchoring fails, the re-run action builds the new input with
the original stored position, and the show-history-item command opens the
document at that same original position. -/
theorem reanchor_fallback_original_position (h : HistoryState) (item : HistoryItem)
    (hmiss : item.anchor.guessedTrackedPosition = none) :
    (TreeInputHistory.reRunHistoryItem h item).2
      = item.input.withPosition item.input.position
  ∧ (runHistoryCommand h "_references-view.showHistoryItem" (some item)).2
      = CommandOutcome.openedDoc item.input.uri item.input.position item.input.position := by
  constructor
  · rw [TreeInputHistory.reRunHistoryItem, hmiss]
    rfl
  · have e : runHistoryCommand h "_references-view.showHistoryItem" (some item)
        = (h, CommandOutcome.openedDoc item.input.uri
            ((item.anchor.guessedTrackedPosition).getD item.input.position)
            ((item.anchor.guessedTrackedPosition).getD item.input.position)) := rfl
    rw [e, hmiss]
    rfl

/-- C7, witness: the fixture item whose anchor fails to re-anchor. -/
theorem reanchor_fallback_original_position_witness :
    item0.anchor.guessedTrackedPosition = none
  ∧ (TreeInputHistory.reRunHistoryItem hist1 item0).2
      = item0.input.withPosition item0.input.position := by
  have hm : item0.anchor.guessedTrackedPosition = none := rfl
  exact ⟨hm, (reanchor_fallback_original_position hist1 item0 hm).1⟩

/-- C8. setInput with an invalid request position is exactly clearInput: the
state equals the clearInput state, with hasResult published false, the title
reset to the default label, the history provider handed to the delegate, and
none of the active-input effects, since the is-active context, the focus
count and the stored input show no trace of the input. -/
theorem setInput_invalid_position_clears (st : TreeState) (input : SymbolTreeInput)
    (pid : Nat) :
    SymbolsTree.setInputStart st input false pid = SymbolsTree.clearInput st
  ∧ (SymbolsTree.setInputStart st input false pid).ctxHasResult = some false
  ∧ (SymbolsTree.setInputStart st input false pid).title = "References"
  ∧ (SymbolsTree.setInputStart st input false pid).delegate.provider
      = some ProviderRef.history
  ∧ (SymbolsTree.setInputStart st input false pid).ctxIsActive = st.ctxIsActive
  ∧ (SymbolsTree.setInputStart st input false pid).focusRequests = st.focusRequests
  ∧ (SymbolsTree.setInputStart st input false pid).input = none := by
  exact ⟨rfl, rfl, rfl, rfl, rfl, rfl, rfl⟩

/-- C9. A rejected provider promise unsets the backing provider and appends
the error to the log instead of raising it, and each of the three tree
operations returns the missing-provider error exactly when no backing
provider is set. -/
theorem delegate_reject_unsets_and_missing_provider (st : DelegateState) (p : ProviderRef)
    (err : String) (el : Nat) (par : Option Nat) :
    (st.settle p (SettleOutcome.rejected err)).provider = none
  ∧ (st.settle p (SettleOutcome.rejected err)).log = st.log ++ [err]
  ∧ (st.getTreeItem el = Except.error "MISSING provider" ↔ st.provider = none)
  ∧ (st.getChildren par = Except.error "MISSING provider" ↔ st.provider = none)
  ∧ (st.getParent el = Except.error "MISSING provider" ↔ st.provider = none) := by
  refine ⟨rfl, rfl, ?_, ?_, ?_⟩ <;>
    cases hp : st.provider <;>
      simp [DelegateState.getTreeItem, DelegateState.getChildren,
        DelegateState.getParent, hp]

/-- C9, witness at the fresh delegate state and one with a provider. -/
theorem delegate_reject_unsets_and_missing_provider_witness :
    (del0.settle ProviderRef.history (SettleOutcome.rejected "boom")).provider = none
  ∧ (del0.getTreeItem 0 = Except.error "MISSING provider" ↔ del0.provider = none) := by
  exact ⟨(delegate_reject_unsets_and_missing_provider del0 ProviderRef.history "boom" 0 none).1,
    (delegate_reject_unsets_and_missing_provider del0 ProviderRef.history "boom" 0 none).2.2.1⟩

/-- C10. The refresh command targets the head of the insertion-ordered map,
which is the last element of the most-recent-first getChildren listing, the
least-recently added retained item; when the history is empty it does
nothing, and when a target exists it performs the re-run action on it. -/
theorem refresh_reruns_oldest (h : HistoryState) :
    TreeInputHistory.refreshTarget h = (TreeInputHistory.getChildren h).getLast?
  ∧ (h.inputs = [] →
      runHistoryCommand h "references-view.refresh" none = (h, CommandOutcome.nothing))
  ∧ (∀ item, TreeInputHistory.refreshTarget h = some item →
      runHistoryCommand h "references-view.refresh" none
        = ((TreeInputHistory.reRunHistoryItem h item).1,
           CommandOutcome.ranInput (TreeInputHistory.reRunHistoryItem h item).2)) := by
  have base : runHistoryCommand h "references-view.refresh" none
      = (match TreeInputHistory.refreshTarget h with
         | some item =>
             ((TreeInputHistory.reRunHistoryItem h item).1,
              CommandOutcome.ranInput (TreeInputHistory.reRunHistoryItem h item).2)
         | none => (h, CommandOutcome.nothing)) := rfl
  refine ⟨?_, ?_, ?_⟩
  · cases hi : h.inputs with
    | nil => simp [TreeInputHistory.refreshTarget, TreeInputHistory.getChildren, hi]
    | cons a t =>
        simp [TreeInputHistory.refreshTarget, TreeInputHistory.getChildren, hi,
          List.getLast?_reverse]
  · intro hnil
    rw [base]
    have ht : TreeInputHistory.refreshTarget h = none := by
      simp [TreeInputHistory.refreshTarget, hnil]
    rw [ht]
  · intro item hit
    rw [base, hit]

/-- C10, witness at the one-item history state. -/
theorem refresh_reruns_oldest_witness :
    TreeInputHistory.refreshTarget hist1 = some item0
  ∧ runHistoryCommand hist1 "references-view.refresh" none
      = ((TreeInputHistory.reRunHistoryItem hist1 item0).1,
         CommandOutcome.ranInput (TreeInputHistory.reRunHistoryItem hist1 item0).2) := by
  have ht : TreeInputHistory.refreshTarget hist1 = some item0 := rfl
  exact ⟨ht, (refresh_reruns_oldest hist1).2.2 item0 ht⟩
